import Mathlib

/- Shallow embedding of src/blocks/groundhog/examples/sine.py: the AddParameters
brick, the SeriesIterator data source, the Emitter cost and the noise wiring of
main. Library collaborators missing from src (the Fork and MLP bricks, the
sequence generator scoring loop, the graph noise transform and the gradient
engine) are modelled from the specification, as noted in their doc comments.
Machine floats are modelled by rationals. -/

abbrev Vec := List ℚ

abbrev Mat := List Vec

def dot (a b : Vec) : ℚ := (List.zipWith (fun x y => x * y) a b).sum

def matVec (w : Mat) (v : Vec) : Vec := w.map (fun row => dot row v)

def vecAdd (a b : Vec) : Vec := List.zipWith (fun x y => x + y) a b

/-- Modelled from the spec: the Fork brick (blocks.bricks.parallel, not under
src) computes, for each declared output name, a learned affine projection of
its input vector (spec 4.2: a learned affine projection of params, added
elementwise to each input port). -/
structure Fork where
  names : List String
  input_dim : Nat
  fork_dims : String → Nat
  weights : String → Mat
  biases : String → Vec

def Fork.apply (f : Fork) (params : Vec) (n : String) : Vec :=
  vecAdd (matVec (f.weights n) params) (f.biases n)

inductive Activation
  | identity
deriving DecidableEq

def Activation.run : Activation → Vec → Vec
  | .identity => fun v => v

structure Layer where
  w : Mat
  b : Vec

/-- Modelled from the spec: the MLP brick (blocks.bricks, not under src)
applies a chain of affine layers, each followed by its activation; with the
single Identity activation used for the init child it is a learned affine
projection with no nonlinearity (spec 4.2). The dims list is the lazily
configured layer size chain. -/
structure MLP where
  acts : List Activation
  dims : List Nat
  layers : List Layer

def MLP.apply (m : MLP) (v : Vec) : Vec :=
  (m.acts.zip m.layers).foldl
    (fun x p => Activation.run p.1 (vecAdd (matVec p.2.w x) p.2.b)) v

/-- Keyword arguments of a brick application: a Python dict from names to
tensor values, represented extensionally. -/
abbrev Kw := String → Option Vec

def kwSet (kw : Kw) (n : String) (v : Vec) : Kw :=
  fun m => if m = n then some v else kw m

/-- Modelled from the spec: the wrapped recurrent cell (GatedRecurrent in main,
not under src) as seen by AddParameters: named sequence, state and context
ports, a port dimension map (spec 4.1) and an abstract state update. -/
structure RecurrentCell where
  sequences : List String
  states : List String
  contexts : List String
  get_dim : String → Nat
  apply : Kw → Vec

/-- The AddParameters brick of sine.py (src L34-L99): wraps a transition and
adds dependency on a params context vector. -/
structure AddParameters where
  transition : RecurrentCell
  num_params : Nat
  params_name : String
  input_names : List String
  state_name : String
  fork : Fork
  init : MLP

/-- Embeds AddParameters init (src L42-L56) together with the later allocate
step: input_names are the transition sequences without mask (L48-L49), the
state name is the first declared state port (L50), read before the assertion
that there is exactly one state port (L51); with no state port the subscript
itself fails (a Python IndexError), with two or more the assertion fails. The
fork and init weight tensors materialized by allocate are supplied as
arguments fw, fb and il. -/
def AddParameters.make (t : RecurrentCell) (np : Nat) (pn : String)
    (fw : String → Mat) (fb : String → Vec) (il : List Layer) :
    Except String AddParameters :=
  match t.states with
  | [] => .error "IndexError: transition declares no state port"
  | s :: rest =>
    if rest = [] then
      .ok { transition := t, num_params := np, params_name := pn,
            input_names := t.sequences.filter (fun n => n != "mask"),
            state_name := s,
            fork := { names := t.sequences.filter (fun n => n != "mask"),
                      input_dim := 0, fork_dims := fun _ => 0,
                      weights := fw, biases := fb },
            init := { acts := [Activation.identity], dims := [0, 0],
                      layers := il } }
    else .error "AssertionError: transition declares several state ports"

/-- Embeds AddParameters get_dim (src L96-L99). -/
def AddParameters.get_dim (ap : AddParameters) (name : String) : Nat :=
  if name = "params" then ap.num_params else ap.transition.get_dim name

/-- Embeds AddParameters initial_state (src L92-L94): the init MLP applied to
the params keyword; the batch size argument is ignored by the code. -/
def AddParameters.initial_state (ap : AddParameters) (params : Vec) : Vec :=
  ap.init.apply params

/-- Embeds AddParameters push_allocation_config (src L58-L63): the fork input
dimension becomes num_params, the fork output dimensions are the transition
port dimensions of the input names, and the init dims get num_params at index
0 and the state port dimension at the last index. -/
def AddParameters.pushAllocationConfig (ap : AddParameters) : AddParameters :=
  { ap with
    fork := { ap.fork with
      input_dim := ap.num_params,
      fork_dims := fun n =>
        if n ∈ ap.input_names then ap.transition.get_dim n
        else ap.fork.fork_dims n },
    init := { ap.init with
      dims := (ap.init.dims.set 0 ap.num_params).set
        (ap.init.dims.length - 1)
        (ap.transition.get_dim ap.state_name) } }

/-- Embeds the kwargs transformation of AddParameters apply (src L72-L82) up
to the final delegation into the wrapped transition: every input name is
popped (a missing one, or a repeated pop caused by a duplicated name or by
params among the input names, is a Python KeyError, modelled as none), the
fork projection of params is added to each popped input and the dict updated;
params is popped and not restored; when the iterate keyword is absent or true
the state entry is overwritten with initial_state of params. -/
def forkUpdated (ap : AddParameters) (kw : Kw) (ps : Vec) : Kw := fun m =>
  if m ∈ ap.input_names then
    (kw m).map (fun v => vecAdd v (Fork.apply ap.fork ps m))
  else if m = "params" then none
  else kw m

def AddParameters.delegated (ap : AddParameters) (iterate : Option Bool)
    (kw : Kw) : Option Kw :=
  if ap.input_names.Nodup ∧ (∀ n ∈ ap.input_names, (kw n).isSome)
      ∧ "params" ∉ ap.input_names then
    match kw "params" with
    | none => none
    | some ps =>
      some (if iterate.getD true then
              kwSet (forkUpdated ap kw ps) ap.state_name
                (ap.initial_state ps)
            else forkUpdated ap kw ps)
  else none

/-- Embeds the full AddParameters apply (src L72-L82): the delegated kwargs
fed to the abstract transition update. -/
def AddParameters.apply (ap : AddParameters) (iterate : Option Bool)
    (kw : Kw) : Option Vec :=
  (ap.delegated iterate kw).map ap.transition.apply

/-- Reads one entry of an optional kwargs dict. -/
def dlookup (o : Option Kw) (n : String) : Option (Option Vec) :=
  o.map (fun k => k n)

/-- Shape discipline of an allocated MLP: consecutive dims entries give the
column and row counts of each affine layer. -/
def layersMatch : List Nat → List Layer → Prop
  | d0 :: d1 :: ds, l :: ls =>
      l.w.length = d1 ∧ (∀ r ∈ l.w, r.length = d0) ∧ l.b.length = d1
        ∧ layersMatch (d1 :: ds) ls
  | [_], [] => True
  | _, _ => False

def MLP.wellAllocated (m : MLP) : Prop := layersMatch m.dims m.layers

/-- A user supplied Python function as seen through inspect.getargspec: its
named argument list and its scalar semantics on a parameter list and a time
value (numpy broadcasting of a scalar expression acts elementwise). -/
structure PyFunc where
  args : List String
  impl : List ℚ → ℚ → ℚ

/-- Embeds the num_params derivation used at src L107 and src L154: the number
of named arguments of the function minus one. -/
def numParamsOf (argNames : List String) : Nat := argNames.length - 1

/-- One training batch as returned by SeriesIterator.next (src L118): the
target tensor x of shape seq_len by batch_size by 1 and the params matrix of
shape batch_size by num_params. -/
structure Batch where
  x : List (List Vec)
  params : List Vec
deriving DecidableEq

/-- Embeds SeriesIterator init (src L105-L107); rng models the external numpy
RandomState: rng j k is the uniform draw on the fixed range zero to one for
sequence j, parameter k. -/
structure SeriesIterator where
  rng : Nat → Nat → ℚ
  func : PyFunc
  seq_len : Nat
  batch_size : Nat
  num_params : Nat

def SeriesIterator.make (rng : Nat → Nat → ℚ) (func : PyFunc)
    (seq_len batch_size : Nat) : SeriesIterator :=
  { rng := rng, func := func, seq_len := seq_len, batch_size := batch_size,
    num_params := numParamsOf func.args }

/-- Embeds SeriesIterator.next (src L109-L118). The params matrix holds fresh
uniform draws (L111-L112). The loop body (L115-L116) calls func with exactly
two positional arguments: the Python list wrapping all parameter columns, and
the time array i times ones(batch_size); a count different from the declared
argument count of func raises TypeError. When func takes two arguments, so
num_params is one, the single wrapped column broadcasts as the parameter and
row i holds the elementwise values func(params_j, i). -/
def SeriesIterator.next (it : SeriesIterator) : Except String Batch :=
  let params : List Vec :=
    (List.range it.batch_size).map
      (fun j => (List.range it.num_params).map (fun k => it.rng j k))
  if 2 = it.func.args.length then
    .ok { x := (List.range it.seq_len).map
            (fun i => (List.range it.batch_size).map
              (fun j => [it.func.impl (params.getD j []) (i : ℚ)])),
          params := params }
  else .error "TypeError: wrong number of positional arguments"

/-- A numpy style array in flat representation: a shape and the row major
data; embeds the theano tensors flowing through Emitter.cost. -/
structure Arr where
  shape : List Nat
  data : List ℚ
deriving DecidableEq

/-- Worker for chunk: c is the remaining capacity of the current group, acc
the current group reversed. -/
def chunkGo (k : Nat) : List ℚ → Nat → List ℚ → List (List ℚ)
  | [], _, acc => if acc = [] then [] else [acc.reverse]
  | x :: xs, c, acc =>
      if c = 1 then (x :: acc).reverse :: chunkGo k xs k []
      else chunkGo k xs (c - 1) (x :: acc)

/-- Groups a flat list into consecutive chunks of size k, the row major view
of the last axis. -/
def chunk (k : Nat) (l : List ℚ) : List (List ℚ) := chunkGo k l k []

def Arr.sub (a b : Arr) : Arr :=
  { shape := a.shape, data := List.zipWith (fun x y => x - y) a.data b.data }

def Arr.sq (a : Arr) : Arr :=
  { shape := a.shape, data := a.data.map (fun q => q * q) }

/-- Sum over the last axis, axis ndim minus one: each run of lastDim entries
collapses to its sum and the shape loses its last entry. -/
def Arr.sumAxisLast (a : Arr) : Arr :=
  { shape := a.shape.dropLast,
    data := (chunk (a.shape.getLastD 1) a.data).map (fun c => c.sum) }

/-- Embeds the final scalar reduction sum() applied by the caller at src
L187-L189. -/
def Arr.sumAll (a : Arr) : ℚ := a.data.sum

/-- Embeds Emitter.cost (src L156-L160): the squared difference of readouts
and outputs, summed over axis ndim minus one, the feature axis. -/
def Emitter.cost (readouts outputs : Arr) : Arr :=
  Arr.sumAxisLast (Arr.sq (Arr.sub readouts outputs))

/-- Follows the spec words, for refinement comparison only: the per element
squared error with no reduction over the feature dimension. -/
def specCostPerElement (readouts outputs : Arr) : Arr :=
  Arr.sq (Arr.sub readouts outputs)

/-- Modelled from the spec: a node of the theano computation graph built at
src L187-L189, restricted to the arithmetic needed here. An input node is one
of the graph input variables collected in cost.inputs (the target tensor x
and the params matrix); the weight node is a learnable shared parameter,
which is not an input of the graph. -/
inductive TExpr
  | input (name : String)
  | weight
  | lit (q : ℚ)
  | add (a b : TExpr)
  | mul (a b : TExpr)
deriving DecidableEq

def TExpr.eval (env : String → ℚ) (w : ℚ) : TExpr → ℚ
  | .input n => env n
  | .weight => w
  | .lit q => q
  | .add a b => a.eval env w + b.eval env w
  | .mul a b => a.eval env w * b.eval env w

/-- Modelled from the spec: the external gradient engine, grad of the cost
node with respect to the learnable parameter, as a symbolic derivative. -/
def TExpr.gradWeight : TExpr → TExpr
  | .input _ => .lit 0
  | .weight => .lit 1
  | .lit _ => .lit 0
  | .add a b => .add a.gradWeight b.gradWeight
  | .mul a b => .add (.mul a.gradWeight b) (.mul a b.gradWeight)

/-- Modelled from the spec: the graph noise transform (blocks.graph, not under
src) called at src L190 on cost.inputs replaces every graph input variable v
by v plus a zero mean Gaussian draw of the configured standard deviation; the
CLI help at src L138-L140 describes it as adding noise to the training
sequences. The draw for each input is the value of noise at its name; a
standard deviation of zero makes every draw zero. -/
def mapNoise (noise : String → ℚ) : TExpr → TExpr
  | .input n => .add (.input n) (.lit (noise n))
  | .weight => .weight
  | .lit q => .lit q
  | .add a b => .add (mapNoise noise a) (mapNoise noise b)
  | .mul a b => .mul (mapNoise noise a) (mapNoise noise b)

/-- Embeds the gradient used by one training iteration (src L187-L196): the
noise transform is applied to the cost graph first, then the gradient engine
differentiates the noised cost and the result is evaluated on the drawn data
env and the current weight. -/
def trainingGradient (cost : TExpr) (noise env : String → ℚ) (w : ℚ) : ℚ :=
  TExpr.eval env w (TExpr.gradWeight (mapNoise noise cost))

/-- The gradient of the unmodified cost graph on the same data and weight. -/
def plainGradient (cost : TExpr) (env : String → ℚ) (w : ℚ) : ℚ :=
  TExpr.eval env w (TExpr.gradWeight cost)

/-- Per step, per batch element emission cost on a feature vector: the squared
differences summed over the feature axis, the Vec level reading of
Emitter.cost (src L156-L160). -/
def emitCostVec (r t : Vec) : ℚ :=
  (List.zipWith (fun a b => (a - b) * (a - b)) r t).sum

def zeroLike (v : Vec) : Vec := v.map (fun _ => 0)

/-- Modelled from the spec: the scoring loop of the sequence generator (spec
4.4, the library SequenceGenerator is not under src), one sequence at a time:
at step t the input is the previous target, the readout is computed from the
state and that input, the emission cost against the current target is
accumulated, and the state advances through the parameter conditioned step.
The step and readout functions are abstract; vectorization across the batch
runs this identical computation per sequence (spec 5). -/
def scoreSteps (step : Vec → Vec → Vec → Vec) (rdout : Vec → Vec → Vec)
    (p : Vec) : Vec → Vec → List Vec → ℚ
  | _, _, [] => 0
  | st, inp, tg :: rest =>
      emitCostVec (rdout st inp) tg
        + scoreSteps step rdout p (step p inp st) tg rest

/-- Modelled from the spec: the cost of scoring one sequence, starting from
the learned initial state of its params with a zero initial input (spec 4.4,
target at index minus one is the zero vector). -/
def scoreSeq (ini : Vec → Vec) (step : Vec → Vec → Vec → Vec)
    (rdout : Vec → Vec → Vec) (p : Vec) (tgt : List Vec) : ℚ :=
  scoreSteps step rdout p (ini p) (zeroLike (tgt.headD [])) tgt

/-- Modelled from the spec: the vector of per sequence costs of one batch,
the identical per sequence computation mapped across the batch (spec 5). -/
def perSeqCosts (ini : Vec → Vec) (step : Vec → Vec → Vec → Vec)
    (rdout : Vec → Vec → Vec) (batch : List (Vec × List Vec)) : List ℚ :=
  batch.map (fun s => scoreSeq ini step rdout s.1 s.2)

/-- Reorders a list by a list of indices. -/
def permute {α : Type} (σ : List Nat) (l : List α) : List α :=
  σ.filterMap (fun i => l[i]?)

/-- A small concrete transition with ports mask and inputs and one state port,
used to instantiate the theorems on closed inputs. -/
def tW : RecurrentCell :=
  { sequences := ["mask", "inputs"], states := ["states"], contexts := [],
    get_dim := fun _ => 2, apply := fun _ => [] }

/-- A concrete transition declaring two state ports. -/
def tBadW : RecurrentCell :=
  { sequences := ["inputs"], states := ["s1", "s2"], contexts := [],
    get_dim := fun _ => 2, apply := fun _ => [] }

def fwW : String → Mat := fun _ => [[1]]

def fbW : String → Vec := fun _ => [0]

def ilW : List Layer := [{ w := [[1], [2]], b := [0, 0] }]

/-- The AddParameters value produced by make on the concrete transition tW. -/
def apW : AddParameters :=
  { transition := tW, num_params := 1, params_name := "params",
    input_names := ["inputs"], state_name := "states",
    fork := { names := ["inputs"], input_dim := 0, fork_dims := fun _ => 0,
              weights := fwW, biases := fbW },
    init := { acts := [Activation.identity], dims := [0, 0], layers := ilW } }

/-- Concrete kwargs for the apply theorems. -/
def kwW : Kw := fun n =>
  if n = "inputs" then some [1]
  else if n = "params" then some [2]
  else if n = "mask" then some [7]
  else if n = "states" then some [9]
  else none

def iniW : Vec → Vec := fun p => p

def stepW : Vec → Vec → Vec → Vec := fun p i s => vecAdd p (vecAdd i s)

def rdW : Vec → Vec → Vec := fun s i => vecAdd s i

def b1W : List (Vec × List Vec) := [([1], [[2]]), ([3], [[4]])]

def b2W : List (Vec × List Vec) := [([3], [[4]]), ([1], [[2]])]

def sigW : List Nat := [1, 0]

def rngW : Nat → Nat → ℚ := fun j k => (j : ℚ) + 1 + (k : ℚ)

/-- A one parameter family, the shape of the default lambda a, x. -/
def fAXW : PyFunc := { args := ["a", "x"], impl := fun ps t => ps.headD 0 * t }

/-- A two parameter family, legal for the CLI contract. -/
def fABXW : PyFunc :=
  { args := ["a", "b", "x"], impl := fun ps t => ps.headD 0 * t + ps.getD 1 0 }

def costDemoW : TExpr := .mul .weight (.mul (.input "x") (.input "x"))

def noiseOneW : String → ℚ := fun _ => 1

def envAW : String → ℚ := fun _ => 1

def envBW : String → ℚ := fun _ => 2

theorem make_ok_fields {t : RecurrentCell} {np : Nat} {pn : String}
    {fw : String → Mat} {fb : String → Vec} {il : List Layer}
    {ap : AddParameters}
    (hmk : AddParameters.make t np pn fw fb il = .ok ap) :
    ap.transition = t ∧ ap.num_params = np ∧
    ap.input_names = t.sequences.filter (fun n => n != "mask") ∧
    t.states = [ap.state_name] ∧
    ap.init.acts = [Activation.identity] ∧ ap.init.dims = [0, 0] ∧
    ap.init.layers = il := by
  unfold AddParameters.make at hmk
  split at hmk
  next heq => exact absurd hmk (by simp)
  next s rest heq =>
    split at hmk
    next hr =>
      obtain rfl := (Except.ok.inj hmk).symm
      refine ⟨rfl, rfl, rfl, ?_, rfl, rfl, rfl⟩
      rw [heq, hr]
    next hr => exact absurd hmk (by simp)

theorem eval_mapNoise (noise env : String → ℚ) (w : ℚ) :
    ∀ e : TExpr, TExpr.eval env w (mapNoise noise e)
      = TExpr.eval (fun n => env n + noise n) w e := by
  intro e
  induction e with
  | input n => rfl
  | weight => rfl
  | lit q => rfl
  | add a b iha ihb => simp [mapNoise, TExpr.eval, iha, ihb]
  | mul a b iha ihb => simp [mapNoise, TExpr.eval, iha, ihb]

theorem eval_gradWeight_mapNoise (noise env : String → ℚ) (w : ℚ) :
    ∀ e : TExpr, TExpr.eval env w (TExpr.gradWeight (mapNoise noise e))
      = TExpr.eval (fun n => env n + noise n) w (TExpr.gradWeight e) := by
  intro e
  induction e with
  | input n => simp [mapNoise, TExpr.gradWeight, TExpr.eval]
  | weight => rfl
  | lit q => rfl
  | add a b iha ihb => simp [mapNoise, TExpr.gradWeight, TExpr.eval, iha, ihb]
  | mul a b iha ihb =>
      simp [mapNoise, TExpr.gradWeight, TExpr.eval, iha, ihb, eval_mapNoise]

theorem chunkGo_map_sum (k : Nat) :
    ∀ (l : List ℚ) (c : Nat) (acc : List ℚ),
      ((chunkGo k l c acc).map (fun g => g.sum)).sum = acc.sum + l.sum := by
  intro l
  induction l with
  | nil =>
      intro c acc
      by_cases ha : acc = []
      · subst ha; simp [chunkGo]
      · simp [chunkGo, ha, List.sum_reverse]
  | cons x xs ih =>
      intro c acc
      by_cases hc : c = 1
      · subst hc
        simp [chunkGo, ih, List.sum_reverse]
        ring
      · simp [chunkGo, hc, ih]
        ring

theorem chunk_map_sum (k : Nat) (l : List ℚ) :
    ((chunk k l).map (fun g => g.sum)).sum = l.sum := by
  simpa using chunkGo_map_sum k l k []

theorem map_permute {α β : Type} (f : α → β) (σ : List Nat) (l : List α) :
    permute σ (l.map f) = (permute σ l).map f := by
  unfold permute
  induction σ with
  | nil => rfl
  | cons i σi ih =>
      simp only [List.getElem?_map] at ih ⊢
      simp only [List.filterMap_cons]
      cases hi : l[i]? with
      | none => simp [hi, ih]
      | some a => simp [hi, ih]

def exceptOk {ε α : Type} : Except ε α → Bool
  | .ok _ => true
  | .error _ => false

/-- Claim C2 counterexample: the training noise of main (src L190) perturbs
the graph input variables, not the gradient components. On the concrete cost
weight times input squared, with every Gaussian draw held fixed at one, the
quantity the mechanism adds to the gradient is 3 on one data point and 5 on
another, so it is not the data independent draw the claim describes; and the
cost value itself changes, so the noise touches more than the gradient
components. -/
theorem input_noise_not_gradient_noise_cex :
    trainingGradient costDemoW noiseOneW envAW 1
        - plainGradient costDemoW envAW 1 = 3
      ∧ trainingGradient costDemoW noiseOneW envBW 1
        - plainGradient costDemoW envBW 1 = 5
      ∧ TExpr.eval envAW 1 (mapNoise noiseOneW costDemoW)
        ≠ TExpr.eval envAW 1 costDemoW := by
  refine ⟨?_, ?_, ?_⟩ <;>
    norm_num [trainingGradient, plainGradient, costDemoW, noiseOneW, envAW,
      envBW, mapNoise, TExpr.gradWeight, TExpr.eval]

/-- Claim C2 amended: in every training iteration the independent zero mean
Gaussian draws of the configured standard deviation are added to each
component of the graph input variables (the training sequences and the params
matrix), nothing is added to the gradients themselves: the gradient actually
used is the plain gradient of the cost evaluated at the noised inputs; with
standard deviation zero every draw is zero and the iteration is exactly plain
gradient descent. -/
theorem input_noise_amended (cost : TExpr) (noise env : String → ℚ) (w : ℚ) :
    trainingGradient cost noise env w
        = plainGradient cost (fun n => env n + noise n) w
      ∧ trainingGradient cost (fun _ => 0) env w = plainGradient cost env w := by
  constructor
  · exact eval_gradWeight_mapNoise noise env w cost
  · have h := eval_gradWeight_mapNoise (fun _ => 0) env w cost
    simpa using h

/-- Claim C3 counterexample: on a one step, one element batch with a two
feature readout, Emitter.cost (src L156-L160) returns the squared errors
already summed over the feature axis, so it differs from the unreduced per
element squared error the claim describes. -/
theorem emitter_cost_reduces_feature_axis_cex :
    Emitter.cost { shape := [1, 1, 2], data := [1, 2] }
        { shape := [1, 1, 2], data := [0, 0] }
      ≠ specCostPerElement { shape := [1, 1, 2], data := [1, 2] }
        { shape := [1, 1, 2], data := [0, 0] } := by decide

/-- Claim C3 amended: Emitter.cost returns the per element squared errors
summed over the feature (last) axis, one value per time step and batch
element; the remaining summation over time and batch is performed by the
caller, and the resulting scalar equals the total sum of all per element
squared errors. -/
theorem emitter_cost_amended (readouts outputs : Arr) :
    (Emitter.cost readouts outputs).shape = readouts.shape.dropLast
      ∧ (Emitter.cost readouts outputs).sumAll
        = (specCostPerElement readouts outputs).sumAll := by
  constructor
  · rfl
  · unfold Emitter.cost Arr.sumAll Arr.sumAxisLast specCostPerElement
    exact chunk_map_sum _ _

/-- Claim C5: get_dim of the injector returns num_params on the params name
and delegates every other name to the wrapped transition (src L96-L99). -/
theorem get_dim_delegation (ap : AddParameters) :
    ap.get_dim "params" = ap.num_params
      ∧ ∀ n : String, n ≠ "params" → ap.get_dim n = ap.transition.get_dim n := by
  constructor
  · simp [AddParameters.get_dim]
  · intro n hn
    simp [AddParameters.get_dim, hn]

theorem get_dim_delegation_witness :
    AddParameters.get_dim apW "params" = 1
      ∧ AddParameters.get_dim apW "inputs" = 2 := by
  constructor
  · exact (get_dim_delegation apW).1
  · exact (get_dim_delegation apW).2 "inputs" (by decide)

/-- Claim C6: wrapping a transition whose declared state port count differs
from one fails at construction time (src L50-L51: the subscript fails on zero
state ports, the assertion on several), and with exactly one declared state
port construction succeeds and the state name is that single port. -/
theorem single_state_port_invariant (t : RecurrentCell) (np : Nat)
    (pn : String) (fw : String → Mat) (fb : String → Vec) (il : List Layer) :
    (t.states.length ≠ 1 →
        exceptOk (AddParameters.make t np pn fw fb il) = false)
      ∧ ∀ s : String, t.states = [s] →
          ∃ ap : AddParameters,
            AddParameters.make t np pn fw fb il = .ok ap
              ∧ ap.state_name = s := by
  constructor
  · intro hne
    unfold AddParameters.make
    split
    · rfl
    next s rest heq =>
      by_cases hr : rest = []
      · exact absurd (show t.states.length = 1 by simp [heq, hr]) hne
      · rw [if_neg hr]
        rfl
  · intro s hs
    refine ⟨{ transition := t, num_params := np, params_name := pn,
              input_names := t.sequences.filter (fun n => n != "mask"),
              state_name := s,
              fork := { names := t.sequences.filter (fun n => n != "mask"),
                        input_dim := 0, fork_dims := fun _ => 0,
                        weights := fw, biases := fb },
              init := { acts := [Activation.identity], dims := [0, 0],
                        layers := il } }, ?_, rfl⟩
    unfold AddParameters.make
    rw [hs]
    rfl

theorem single_state_port_invariant_witness :
    exceptOk (AddParameters.make tBadW 1 "params" fwW fbW ilW) = false
      ∧ exceptOk (AddParameters.make tW 1 "params" fwW fbW ilW) = true := by
  constructor
  · exact (single_state_port_invariant tBadW 1 "params" fwW fbW ilW).1
      (by decide)
  · obtain ⟨ap, hok, _⟩ :=
      (single_state_port_invariant tW 1 "params" fwW fbW ilW).2 "states" rfl
    rw [hok]
    rfl

/-- Claim C1: on a wired wrapped cell, apply delegates, for every input port
except mask, the externally supplied value plus the fork affine projection of
the params context vector, elementwise, and passes a mask entry through
unchanged (src L48-L49, L53, L72-L82). -/
theorem addparams_apply_adds_fork {t : RecurrentCell} {np : Nat} {pn : String}
    {fw : String → Mat} {fb : String → Vec} {il : List Layer}
    {ap : AddParameters} (it : Option Bool) (kw : Kw) (ps : Vec)
    (hmk : AddParameters.make t np pn fw fb il = .ok ap)
    (hnd : ap.input_names.Nodup)
    (hall : ∀ n ∈ ap.input_names, (kw n).isSome)
    (hpni : "params" ∉ ap.input_names)
    (hp : kw "params" = some ps)
    (hsni : ap.state_name ∉ ap.input_names)
    (hsm : ap.state_name ≠ "mask") :
    (∀ n v, n ∈ ap.input_names → kw n = some v →
        dlookup (ap.delegated it kw) n
          = some (some (vecAdd v (Fork.apply ap.fork ps n))))
      ∧ dlookup (ap.delegated it kw) "mask" = some (kw "mask") := by
  obtain ⟨-, -, hin, -, -, -, -⟩ := make_ok_fields hmk
  have hmask : "mask" ∉ ap.input_names := by
    rw [hin]
    simp [List.mem_filter]
  unfold AddParameters.delegated
  rw [if_pos ⟨hnd, hall, hpni⟩, hp]
  constructor
  · intro n v hn hv
    have hns : ¬ n = ap.state_name := fun he => hsni (he ▸ hn)
    cases hit : it.getD true
    · simp [dlookup, hit, forkUpdated, hn, hv]
    · simp [dlookup, hit, kwSet, hns, forkUpdated, hn, hv]
  · have hms : ¬ "mask" = ap.state_name := fun he => hsm he.symm
    cases hit : it.getD true
    · simp [dlookup, hit, forkUpdated, hmask]
    · simp [dlookup, hit, kwSet, hms, forkUpdated, hmask]

theorem addparams_apply_adds_fork_witness :
    dlookup (AddParameters.delegated apW (some true) kwW) "inputs"
        = some (some (vecAdd [1] (Fork.apply apW.fork [2] "inputs")))
      ∧ dlookup (AddParameters.delegated apW (some true) kwW) "mask"
        = some (kwW "mask") := by
  have h := addparams_apply_adds_fork (some true) kwW [2]
    (show AddParameters.make tW 1 "params" fwW fbW ilW = .ok apW from rfl)
    (by decide) (by decide) (by decide) rfl (by decide) (by decide)
  exact ⟨h.1 "inputs" [1] (by decide) rfl, h.2⟩

/-- Claim C9: when the iterate flag is absent or true, apply discards any
externally supplied state value and delegates initial_state of params in the
state entry; the external state reaches the wrapped cell only when iterate is
explicitly false (src L80-L82). -/
theorem iterate_replaces_state (ap : AddParameters) (kw : Kw) (ps : Vec)
    (it : Option Bool)
    (hnd : ap.input_names.Nodup)
    (hall : ∀ n ∈ ap.input_names, (kw n).isSome)
    (hpni : "params" ∉ ap.input_names)
    (hp : kw "params" = some ps) :
    ((it = none ∨ it = some true) →
        dlookup (ap.delegated it kw) ap.state_name
          = some (some (ap.initial_state ps)))
      ∧ (ap.state_name ∉ ap.input_names → ap.state_name ≠ "params" →
          dlookup (ap.delegated (some false) kw) ap.state_name
            = some (kw ap.state_name)) := by
  constructor
  · intro hit
    unfold AddParameters.delegated
    rw [if_pos ⟨hnd, hall, hpni⟩, hp]
    have hg : it.getD true = true := by
      rcases hit with rfl | rfl <;> rfl
    simp [dlookup, hg, kwSet]
  · intro hst hsp
    unfold AddParameters.delegated
    rw [if_pos ⟨hnd, hall, hpni⟩, hp]
    simp [dlookup, forkUpdated, hst, hsp]

theorem iterate_replaces_state_witness :
    dlookup (AddParameters.delegated apW none kwW) "states"
        = some (some (AddParameters.initial_state apW [2]))
      ∧ dlookup (AddParameters.delegated apW (some false) kwW) "states"
        = some (kwW "states") := by
  have h := iterate_replaces_state apW kwW [2] none
    (by decide) (by decide) (by decide) rfl
  have h2 := iterate_replaces_state apW kwW [2] (some false)
    (by decide) (by decide) (by decide) rfl
  exact ⟨h.1 (Or.inl rfl), h2.2 (by decide) (by decide)⟩

/-- Claim C4: after push allocation config, a well allocated init MLP holds
exactly one affine layer and no nonlinearity, its weight rows have length
num_params (the input dimension), and initial_state of params is that affine
projection, of length the state port dimension of the wrapped cell (src L55,
L58-L63, L92-L94). -/
theorem initial_state_affine {t : RecurrentCell} {np : Nat} {pn : String}
    {fw : String → Mat} {fb : String → Vec} {il : List Layer}
    {ap : AddParameters}
    (hmk : AddParameters.make t np pn fw fb il = .ok ap)
    (halloc : (ap.pushAllocationConfig).init.wellAllocated) (params : Vec) :
    ∃ w b, (ap.pushAllocationConfig).init.layers = [{ w := w, b := b }]
      ∧ (ap.pushAllocationConfig).initial_state params
          = vecAdd (matVec w params) b
      ∧ (∀ r ∈ w, r.length = ap.num_params)
      ∧ ((ap.pushAllocationConfig).initial_state params).length
          = ap.transition.get_dim ap.state_name := by
  obtain ⟨-, -, -, -, hacts, hdims, -⟩ := make_ok_fields hmk
  have hdims2 : (ap.pushAllocationConfig).init.dims
      = [ap.num_params, ap.transition.get_dim ap.state_name] := by
    simp [AddParameters.pushAllocationConfig, hdims]
  have hacts2 : (ap.pushAllocationConfig).init.acts = [Activation.identity] := by
    simp [AddParameters.pushAllocationConfig, hacts]
  unfold MLP.wellAllocated at halloc
  rw [hdims2] at halloc
  rcases hl : (ap.pushAllocationConfig).init.layers with - | ⟨l, ls⟩
  · rw [hl] at halloc
    exact absurd halloc (by simp [layersMatch])
  · rw [hl] at halloc
    obtain ⟨hw, hrows, hb, hrest⟩ := halloc
    rcases ls with - | ⟨l2, ls2⟩
    · refine ⟨l.w, l.b, rfl, ?_, hrows, ?_⟩
      · unfold AddParameters.initial_state MLP.apply
        rw [hacts2, hl]
        simp [Activation.run]
      · unfold AddParameters.initial_state MLP.apply
        rw [hacts2, hl]
        simp [Activation.run, vecAdd, matVec, hw, hb]
    · exact absurd hrest (by simp [layersMatch])

theorem initial_state_affine_witness :
    ((AddParameters.pushAllocationConfig apW).initial_state [5]).length
      = 2 := by
  obtain ⟨w, b, -, -, -, h4⟩ := initial_state_affine
    (show AddParameters.make tW 1 "params" fwW fbW ilW = .ok apW from rfl)
    (show (AddParameters.pushAllocationConfig apW).init.wellAllocated by
      simp [MLP.wellAllocated, AddParameters.pushAllocationConfig, apW, ilW,
        tW, layersMatch])
    [5]
  exact h4

/-- Claim C7 (code bug): next draws the params matrix from the uniform source
with the declared shape, but the loop at src L115-L116 passes the whole list
of parameter columns as one positional argument next to the time array, so a
family with two or more parameters raises TypeError before any Batch exists;
a one parameter family runs through numpy broadcasting, and then every target
equals the user function of the sequence parameters and the time index, as
the claim states. Plot mode (src L211) unpacks the same parameters one per
argument. -/
theorem series_next_arity_bug :
    (SeriesIterator.make rngW fABXW 2 1).next
        = .error "TypeError: wrong number of positional arguments"
      ∧ (SeriesIterator.make rngW fAXW 2 2).next
        = .ok { x := [[[0], [0]], [[1], [2]]], params := [[1], [2]] } := by
  constructor
  · simp [SeriesIterator.next, SeriesIterator.make, numParamsOf, fABXW]
  · simp [SeriesIterator.next, SeriesIterator.make, numParamsOf, fAXW, rngW,
      List.range_succ]
    norm_num

/-- Claim C8: permuting the sequences of a batch, targets together with their
parameter vectors, permutes the per sequence scoring costs by the same index
permutation, and the total summed cost is unchanged. -/
theorem batch_permutation_invariance (ini : Vec → Vec)
    (step : Vec → Vec → Vec → Vec) (rdout : Vec → Vec → Vec)
    (b1 b2 : List (Vec × List Vec)) (σ : List Nat) (h : b1.Perm b2) :
    perSeqCosts ini step rdout (permute σ b1)
        = permute σ (perSeqCosts ini step rdout b1)
      ∧ (perSeqCosts ini step rdout b1).Perm (perSeqCosts ini step rdout b2)
      ∧ (perSeqCosts ini step rdout b1).sum
        = (perSeqCosts ini step rdout b2).sum := by
  refine ⟨?_, ?_, ?_⟩
  · unfold perSeqCosts
    exact (map_permute _ σ b1).symm
  · exact h.map _
  · exact (h.map _).sum_eq

theorem batch_permutation_invariance_witness :
    perSeqCosts iniW stepW rdW (permute sigW b1W)
        = permute sigW (perSeqCosts iniW stepW rdW b1W)
      ∧ (perSeqCosts iniW stepW rdW b1W).Perm (perSeqCosts iniW stepW rdW b2W)
      ∧ (perSeqCosts iniW stepW rdW b1W).sum
        = (perSeqCosts iniW stepW rdW b2W).sum :=
  batch_permutation_invariance iniW stepW rdW b1W b2W sigW
    (List.Perm.swap ([3], [[4]]) ([1], [[2]]) [])

/-- Claim C10: the data source (src L107) and the main wiring (src L154)
derive num_params identically, as the named argument count of the user
function minus one, so the params matrix of every Batch the source produces
has batch_size rows whose length is the declared params dimension of the
injector. -/
theorem num_params_consistency {t : RecurrentCell} {pn : String}
    {fw : String → Mat} {fb : String → Vec} {il : List Layer}
    {ap : AddParameters} (f : PyFunc) (rng : Nat → Nat → ℚ) (sl bs : Nat)
    (hmk : AddParameters.make t (numParamsOf f.args) pn fw fb il = .ok ap) :
    (SeriesIterator.make rng f sl bs).num_params = ap.get_dim "params"
      ∧ ∀ b : Batch, (SeriesIterator.make rng f sl bs).next = .ok b →
          b.params.length = bs
            ∧ ∀ row ∈ b.params, row.length = ap.get_dim "params" := by
  obtain ⟨-, hnp, -, -, -, -, -⟩ := make_ok_fields hmk
  have hgd : ap.get_dim "params" = numParamsOf f.args := by
    simp [AddParameters.get_dim, hnp]
  constructor
  · simp [SeriesIterator.make, hgd]
  · intro b hb
    simp only [SeriesIterator.next] at hb
    split at hb
    · obtain rfl := (Except.ok.inj hb).symm
      constructor
      · simp [SeriesIterator.make]
      · intro row hrow
        simp only [SeriesIterator.make, List.mem_map] at hrow
        obtain ⟨j, -, rfl⟩ := hrow
        simp [SeriesIterator.make, hgd]
    · exact absurd hb (by simp)

theorem num_params_consistency_witness :
    (SeriesIterator.make rngW fAXW 2 2).num_params
      = AddParameters.get_dim apW "params" :=
  (num_params_consistency fAXW rngW 2 2
    (show AddParameters.make tW (numParamsOf fAXW.args) "params" fwW fbW ilW
        = .ok apW from rfl)).1
